import Mathlib

/-!
Verification of the retry/scheduler core of the barbican secrets service
(`barbican/queue/retry_scheduler.py`).

The scheduler's check cycle (`PeriodicServer._check_retry_tasks`) fetches due
retry records from a repository, dispatches each one (`_enqueue_task`) by
resolving the record's named operation on the queue client and invoking it,
and on success marks the record ACTIVE, deletes it and commits; on any failure
it logs the diagnostic values, rolls back, and in all cases clears the session.
The repository (`barbican.model.repositories`) and the queue transport are
external collaborators; their behaviour is modelled from the spec where noted.

The embedding is a state-passing translation: the repository session is a pair
of record lists (committed store and pending session view), and every
externally visible call (invoke, status update, delete, commit, rollback,
clear, error log) appends an event to a trace so that call order can be
stated and proved.
-/

/-- Lifecycle states of a retry record (`models.States`); the scheduler uses
`PENDING_RETRY` for stored records and sets `ACTIVE` on successful dispatch. -/
inductive States where
  | PENDING_RETRY
  | ACTIVE
deriving DecidableEq, Repr

/-- Value as it appears in the failure log of `_enqueue_task`: the three
diagnostic variables are pre-set to the `'N/A'` placeholder and reassigned to
the record's fields as they are successfully read. -/
inductive LogVal where
  | na
  | str (s : String)
  | args (l : List String)
  | kwargs (l : List (String × String))
deriving DecidableEq, Repr

/-- Externally visible call made during one record's dispatch, in order:
remote invocation, session status update, delete-by-id, commit, rollback,
session clear, and the exception-handler log line. -/
inductive Ev where
  | invoke (name : String) (args : List String) (kwargs : List (String × String))
  | setStatus (id : Nat)
  | delete (id : Nat)
  | commit
  | rollback
  | clear
  | logError (name a k : LogVal)
deriving DecidableEq, Repr

deriving instance DecidableEq for Except

/-- One retry record (an `OrderRetryTask` entity).  Reading `retry_task`,
`retry_args` or `retry_kwargs` on a detached or broken entity can itself
raise, so the three field reads are fallible. -/
structure RetryRecord where
  id : Nat
  created_at : Int
  retry_task : Except Unit String
  retry_args : Except Unit (List String)
  retry_kwargs : Except Unit (List (String × String))
  status : States
deriving DecidableEq, Repr

/-- Dispatch-time environment: which operation names the queue client
resolves (`getattr`), which invocations return without raising, and whether
the repository delete and commit calls succeed. -/
structure Env where
  resolvable : String → Bool
  invokeOk : String → List String → List (String × String) → Bool
  deleteOk : Nat → Bool
  commitOk : Bool

/-- Dispatch state: the event trace so far, the committed store contents, and
the pending (uncommitted) session view of the store. -/
structure DState where
  events : List Ev
  committed : List RetryRecord
  pending : List RetryRecord
deriving DecidableEq, Repr

/-- Append one event to the trace. -/
def appendEv (s : DState) (e : Ev) : DState :=
  { s with events := s.events ++ [e] }

/-- Modelled from the spec: the session-tracked assignment
`task.status = models.States.ACTIVE` — the pending view's copy of the record
is updated; the committed store is untouched until commit. -/
def set_status_active (s : DState) (i : Nat) : DState :=
  { s with
    pending := s.pending.map (fun t => if t.id = i then { t with status := States.ACTIVE } else t),
    events := s.events ++ [Ev.setStatus i] }

/-- Modelled from the spec: `order_retry_repo.delete_entity_by_id(id, None)` —
removes the record from the session view, or raises when the store fails. -/
def delete_entity_by_id (ok : Bool) (s : DState) (i : Nat) : Except Unit DState :=
  if ok then
    Except.ok { s with
      pending := s.pending.filter (fun t => t.id ≠ i),
      events := s.events ++ [Ev.delete i] }
  else Except.error ()

/-- Modelled from the spec: `repositories.commit()` — makes the pending view
the committed store contents, or raises when the store fails. -/
def commitOp (ok : Bool) (s : DState) : Except Unit DState :=
  if ok then
    Except.ok { s with committed := s.pending, events := s.events ++ [Ev.commit] }
  else Except.error ()

/-- Modelled from the spec: `repositories.rollback()` — discards the pending
view, resetting it to the committed store contents. -/
def rollbackOp (s : DState) : DState :=
  { s with pending := s.committed, events := s.events ++ [Ev.rollback] }

/-- Modelled from the spec: `repositories.clear()` — releases per-operation
session resources; no effect on store contents. -/
def clearOp (s : DState) : DState :=
  { s with events := s.events ++ [Ev.clear] }

/-- The `try` block of `PeriodicServer._enqueue_task` (lines 132-149): read
the record's task name, args and kwargs (each read reassigning the
corresponding diagnostic variable from its `'N/A'` placeholder), resolve the
name on the queue client, invoke it, then mark ACTIVE, delete the record by
id and commit.  An error carries the diagnostic values current at the point
of failure together with the state reached so far. -/
def enqueue_body (env : Env) (task : RetryRecord) (s : DState) :
    Except ((LogVal × LogVal × LogVal) × DState) DState :=
  match task.retry_task with
  | Except.error _ => Except.error ((LogVal.na, LogVal.na, LogVal.na), s)
  | Except.ok name =>
    match task.retry_args with
    | Except.error _ => Except.error ((LogVal.str name, LogVal.na, LogVal.na), s)
    | Except.ok args =>
      match task.retry_kwargs with
      | Except.error _ => Except.error ((LogVal.str name, LogVal.args args, LogVal.na), s)
      | Except.ok kwargs =>
        if env.resolvable name = false then
          Except.error ((LogVal.str name, LogVal.args args, LogVal.kwargs kwargs), s)
        else if env.invokeOk name args kwargs = false then
          Except.error ((LogVal.str name, LogVal.args args, LogVal.kwargs kwargs), s)
        else
          let s1 := appendEv s (Ev.invoke name args kwargs)
          let s2 := set_status_active s1 task.id
          match delete_entity_by_id (env.deleteOk task.id) s2 task.id with
          | Except.error _ =>
            Except.error ((LogVal.str name, LogVal.args args, LogVal.kwargs kwargs), s2)
          | Except.ok s3 =>
            match commitOp env.commitOk s3 with
            | Except.error _ =>
              Except.error ((LogVal.str name, LogVal.args args, LogVal.kwargs kwargs), s3)
            | Except.ok s4 => Except.ok s4

/-- `PeriodicServer._enqueue_task` (lines 128-163): run the try block; on any
exception log the diagnostic values and roll back; in all cases (`finally`)
clear the session. -/
def enqueue_task (env : Env) (task : RetryRecord) (s : DState) : DState :=
  match enqueue_body env task s with
  | Except.ok s4 => clearOp s4
  | Except.error ((nm, aa, kk), sErr) =>
    clearOp (rollbackOp (appendEv sErr (Ev.logError nm aa kk)))

/-- All steps of a record's dispatch succeed: the three field reads, the
name resolution, the remote invocation, the delete and the commit. -/
def dispatchOk (env : Env) (task : RetryRecord) : Bool :=
  match task.retry_task, task.retry_args, task.retry_kwargs with
  | Except.ok n, Except.ok a, Except.ok k =>
    env.resolvable n && env.invokeOk n a k && env.deleteOk task.id && env.commitOk
  | _, _, _ => false

/-- The events one record's dispatch appends to the trace (a function of the
environment and the record only, not of the incoming state). -/
def dispatchTrace (env : Env) (task : RetryRecord) : List Ev :=
  match task.retry_task with
  | Except.error _ => [Ev.logError LogVal.na LogVal.na LogVal.na, Ev.rollback, Ev.clear]
  | Except.ok name =>
    match task.retry_args with
    | Except.error _ =>
      [Ev.logError (LogVal.str name) LogVal.na LogVal.na, Ev.rollback, Ev.clear]
    | Except.ok args =>
      match task.retry_kwargs with
      | Except.error _ =>
        [Ev.logError (LogVal.str name) (LogVal.args args) LogVal.na, Ev.rollback, Ev.clear]
      | Except.ok kwargs =>
        if env.resolvable name = false then
          [Ev.logError (LogVal.str name) (LogVal.args args) (LogVal.kwargs kwargs),
           Ev.rollback, Ev.clear]
        else if env.invokeOk name args kwargs = false then
          [Ev.logError (LogVal.str name) (LogVal.args args) (LogVal.kwargs kwargs),
           Ev.rollback, Ev.clear]
        else if env.deleteOk task.id = false then
          [Ev.invoke name args kwargs, Ev.setStatus task.id,
           Ev.logError (LogVal.str name) (LogVal.args args) (LogVal.kwargs kwargs),
           Ev.rollback, Ev.clear]
        else if env.commitOk = false then
          [Ev.invoke name args kwargs, Ev.setStatus task.id, Ev.delete task.id,
           Ev.logError (LogVal.str name) (LogVal.args args) (LogVal.kwargs kwargs),
           Ev.rollback, Ev.clear]
        else
          [Ev.invoke name args kwargs, Ev.setStatus task.id, Ev.delete task.id,
           Ev.commit, Ev.clear]

/-- Modelled from the spec: `order_retry_repo.get_by_create_date(...)` — not
under `src/`; per the spec it returns the records with `created_at <= now`
ordered by `created_at` ascending together with their total count, and when
the store is in a transient-failure condition it raises unless the caller
passed `suppress_exception=True`, in which case it returns an empty list and
a total count of zero. -/
def get_by_create_date (store : List RetryRecord) (now : Int)
    (transientFailure : Bool) (suppress : Bool) : Except Unit (List RetryRecord × Nat) :=
  if transientFailure then
    if suppress then Except.ok ([], 0) else Except.error ()
  else
    let due := (store.filter (fun t => t.created_at ≤ now)).mergeSort
      (fun a b => a.created_at ≤ b.created_at)
    Except.ok (due, due.length)

/-- Lines 112-114 of `_check_retry_tasks`: when the fetched total is positive,
dispatch every fetched record in list order. -/
def process_tasks (env : Env) (entities : List RetryRecord) (total : Nat) (s : DState) : DState :=
  if 0 < total then entities.foldl (fun st t => enqueue_task env t st) s else s

/-- `_compute_next_periodic_interval` (lines 51-57): `random.uniform(0.8*B,
1.2*B)` for the configured base interval `B`, where `random.uniform(a, b)`
is `a + (b - a) * r` for a draw `r` of `random.random()`. -/
def compute_next_periodic_interval (B r : ℚ) : ℚ :=
  0.8 * B + (1.2 * B - 0.8 * B) * r

/-- `PeriodicServer._check_retry_tasks` (lines 97-126): fetch the records due
at `now` with `suppress_exception=True`, dispatch each fetched record when the
total is positive, and return the jittered delay until the next cycle. -/
def check_retry_tasks (env : Env) (store : List RetryRecord) (now : Int)
    (transientFailure : Bool) (B r : ℚ) (s : DState) : Except Unit (DState × ℚ) := do
  let (entities, total) ← get_by_create_date store now transientFailure true
  let s' := process_tasks env entities total s
  return (s', compute_next_periodic_interval B r)

/-- Number of session-clear events in a trace. -/
def countClear (l : List Ev) : Nat := l.count Ev.clear

/-- Environment fixture in which every dispatch step succeeds. -/
def env0 : Env := ⟨fun _ => true, fun _ _ _ => true, fun _ => true, true⟩

/-- Record fixture with all fields readable. -/
def rec0 : RetryRecord :=
  ⟨1, 0, Except.ok "retry_order", Except.ok ["o1"], Except.ok [("p", "v")],
   States.PENDING_RETRY⟩

/-- Record fixture whose `retry_task` field read raises. -/
def recBad : RetryRecord :=
  ⟨2, 0, Except.error (), Except.ok [], Except.ok [], States.PENDING_RETRY⟩

/-- State fixture: empty trace, `rec0` committed and in the session view. -/
def s0 : DState := ⟨[], [rec0], [rec0]⟩

theorem enqueue_task_events (env : Env) (task : RetryRecord) (s : DState) :
    (enqueue_task env task s).events = s.events ++ dispatchTrace env task := by
  rcases task with ⟨i, ca, rt, ra, rk, st⟩
  rcases rt with u | name
  · simp [enqueue_task, enqueue_body, dispatchTrace, clearOp, rollbackOp, appendEv]
  rcases ra with u | args
  · simp [enqueue_task, enqueue_body, dispatchTrace, clearOp, rollbackOp, appendEv]
  rcases rk with u | kwargs
  · simp [enqueue_task, enqueue_body, dispatchTrace, clearOp, rollbackOp, appendEv]
  cases hres : env.resolvable name
  · simp [enqueue_task, enqueue_body, dispatchTrace, hres, clearOp, rollbackOp, appendEv]
  cases hinv : env.invokeOk name args kwargs
  · simp [enqueue_task, enqueue_body, dispatchTrace, hres, hinv, clearOp, rollbackOp, appendEv]
  cases hdel : env.deleteOk i
  · simp [enqueue_task, enqueue_body, dispatchTrace, hres, hinv, hdel, clearOp, rollbackOp,
      appendEv, set_status_active, delete_entity_by_id]
  cases hcom : env.commitOk
  · simp [enqueue_task, enqueue_body, dispatchTrace, hres, hinv, hdel, hcom, clearOp,
      rollbackOp, appendEv, set_status_active, delete_entity_by_id, commitOp]
  · simp [enqueue_task, enqueue_body, dispatchTrace, hres, hinv, hdel, hcom, clearOp,
      rollbackOp, appendEv, set_status_active, delete_entity_by_id, commitOp]

theorem enqueue_task_fail_store (env : Env) (task : RetryRecord) (s : DState)
    (h : dispatchOk env task = false) :
    (enqueue_task env task s).committed = s.committed ∧
    (enqueue_task env task s).pending = s.committed := by
  rcases task with ⟨i, ca, rt, ra, rk, st⟩
  rcases rt with u | name
  · simp [enqueue_task, enqueue_body, clearOp, rollbackOp, appendEv]
  rcases ra with u | args
  · simp [enqueue_task, enqueue_body, clearOp, rollbackOp, appendEv]
  rcases rk with u | kwargs
  · simp [enqueue_task, enqueue_body, clearOp, rollbackOp, appendEv]
  cases hres : env.resolvable name
  · simp [enqueue_task, enqueue_body, hres, clearOp, rollbackOp, appendEv]
  cases hinv : env.invokeOk name args kwargs
  · simp [enqueue_task, enqueue_body, hres, hinv, clearOp, rollbackOp, appendEv]
  cases hdel : env.deleteOk i
  · simp [enqueue_task, enqueue_body, hres, hinv, hdel, clearOp, rollbackOp, appendEv,
      set_status_active, delete_entity_by_id]
  cases hcom : env.commitOk
  · simp [enqueue_task, enqueue_body, hres, hinv, hdel, hcom, clearOp, rollbackOp, appendEv,
      set_status_active, delete_entity_by_id, commitOp]
  · simp [dispatchOk, hres, hinv, hdel, hcom] at h

theorem enqueue_task_success_state (env : Env) (task : RetryRecord) (s : DState)
    (name : String) (args : List String) (kwargs : List (String × String))
    (h1 : task.retry_task = Except.ok name)
    (h2 : task.retry_args = Except.ok args)
    (h3 : task.retry_kwargs = Except.ok kwargs)
    (h4 : env.resolvable name = true)
    (h5 : env.invokeOk name args kwargs = true)
    (h6 : env.deleteOk task.id = true)
    (h7 : env.commitOk = true) :
    enqueue_task env task s =
      ⟨s.events ++ [Ev.invoke name args kwargs, Ev.setStatus task.id, Ev.delete task.id,
         Ev.commit, Ev.clear],
       (s.pending.map (fun t =>
          if t.id = task.id then { t with status := States.ACTIVE } else t)).filter
         (fun t => t.id ≠ task.id),
       (s.pending.map (fun t =>
          if t.id = task.id then { t with status := States.ACTIVE } else t)).filter
         (fun t => t.id ≠ task.id)⟩ := by
  rcases task with ⟨i, ca, rt, ra, rk, st⟩
  simp only [RetryRecord.mk.injEq] at h1 h2 h3 ⊢
  subst h1; subst h2; subst h3
  simp [enqueue_task, enqueue_body, h4, h5, h6, h7, clearOp, appendEv,
    set_status_active, delete_entity_by_id, commitOp]

theorem dispatchTrace_shape (env : Env) (task : RetryRecord) :
    ∃ pre c, dispatchTrace env task = pre ++ [c, Ev.clear] ∧
      (c = Ev.commit ∨ c = Ev.rollback) := by
  rcases task with ⟨i, ca, rt, ra, rk, st⟩
  rcases rt with u | name
  · exact ⟨[Ev.logError LogVal.na LogVal.na LogVal.na], Ev.rollback, rfl, Or.inr rfl⟩
  rcases ra with u | args
  · exact ⟨[Ev.logError (LogVal.str name) LogVal.na LogVal.na], Ev.rollback, rfl, Or.inr rfl⟩
  rcases rk with u | kwargs
  · exact ⟨[Ev.logError (LogVal.str name) (LogVal.args args) LogVal.na], Ev.rollback,
      rfl, Or.inr rfl⟩
  cases hres : env.resolvable name
  · exact ⟨[Ev.logError (LogVal.str name) (LogVal.args args) (LogVal.kwargs kwargs)],
      Ev.rollback, by simp [dispatchTrace, hres], Or.inr rfl⟩
  cases hinv : env.invokeOk name args kwargs
  · exact ⟨[Ev.logError (LogVal.str name) (LogVal.args args) (LogVal.kwargs kwargs)],
      Ev.rollback, by simp [dispatchTrace, hres, hinv], Or.inr rfl⟩
  cases hdel : env.deleteOk i
  · exact ⟨[Ev.invoke name args kwargs, Ev.setStatus i,
      Ev.logError (LogVal.str name) (LogVal.args args) (LogVal.kwargs kwargs)],
      Ev.rollback, by simp [dispatchTrace, hres, hinv, hdel], Or.inr rfl⟩
  cases hcom : env.commitOk
  · exact ⟨[Ev.invoke name args kwargs, Ev.setStatus i, Ev.delete i,
      Ev.logError (LogVal.str name) (LogVal.args args) (LogVal.kwargs kwargs)],
      Ev.rollback, by simp [dispatchTrace, hres, hinv, hdel, hcom], Or.inr rfl⟩
  · exact ⟨[Ev.invoke name args kwargs, Ev.setStatus i, Ev.delete i],
      Ev.commit, by simp [dispatchTrace, hres, hinv, hdel, hcom], Or.inl rfl⟩

theorem countClear_dispatchTrace (env : Env) (task : RetryRecord) :
    countClear (dispatchTrace env task) = 1 := by
  rcases task with ⟨i, ca, rt, ra, rk, st⟩
  rcases rt with u | name
  · simp [dispatchTrace, countClear]
  rcases ra with u | args
  · simp [dispatchTrace, countClear]
  rcases rk with u | kwargs
  · simp [dispatchTrace, countClear]
  cases hres : env.resolvable name
  · simp [dispatchTrace, hres, countClear]
  cases hinv : env.invokeOk name args kwargs
  · simp [dispatchTrace, hres, hinv, countClear]
  cases hdel : env.deleteOk i
  · simp [dispatchTrace, hres, hinv, hdel, countClear]
  cases hcom : env.commitOk
  · simp [dispatchTrace, hres, hinv, hdel, hcom, countClear]
  · simp [dispatchTrace, hres, hinv, hdel, hcom, countClear]

theorem countClear_enqueue (env : Env) (task : RetryRecord) (s : DState) :
    countClear (enqueue_task env task s).events = countClear s.events + 1 := by
  have h := countClear_dispatchTrace env task
  unfold countClear at h ⊢
  rw [enqueue_task_events env task s, List.count_append, h]

theorem foldl_enqueue_countClear (env : Env) (entities : List RetryRecord) (s : DState) :
    countClear (entities.foldl (fun st t => enqueue_task env t st) s).events =
      countClear s.events + entities.length := by
  induction entities generalizing s with
  | nil => simp
  | cons t ts ih =>
    simp only [List.foldl_cons, List.length_cons]
    rw [ih (enqueue_task env t s), countClear_enqueue env t s]
    omega

theorem foldl_enqueue_events (env : Env) (entities : List RetryRecord) (s : DState) :
    (entities.foldl (fun st t => enqueue_task env t st) s).events =
      s.events ++ (entities.map (dispatchTrace env)).flatten := by
  induction entities generalizing s with
  | nil => simp
  | cons t ts ih =>
    simp only [List.foldl_cons, List.map_cons, List.flatten_cons]
    rw [ih (enqueue_task env t s), enqueue_task_events env t s, List.append_assoc]

theorem check_retry_tasks_ok (env : Env) (store : List RetryRecord) (now : Int)
    (transientFailure : Bool) (B r : ℚ) (s : DState) :
    ∃ es tot, get_by_create_date store now transientFailure true = Except.ok (es, tot) ∧
      check_retry_tasks env store now transientFailure B r s =
        Except.ok (process_tasks env es tot s, compute_next_periodic_interval B r) := by
  cases transientFailure
  · exact ⟨_, _, rfl, rfl⟩
  · exact ⟨_, _, rfl, rfl⟩

/-- C1: for a retry record whose dispatch succeeds (name resolves on the
queue client and the invocation returns without raising), `_enqueue_task`
invokes the remote operation, then sets the record's status to ACTIVE, then
deletes the record from the store by id, then commits, in that order — the
remote invocation precedes the deletion — and the record is removed from the
committed store; conversely a record is removed from the committed store only
when every step, remote call and store update included, succeeded. -/
theorem enqueue_success_invoke_then_delete_then_commit
    (env : Env) (task : RetryRecord) (s : DState)
    (name : String) (args : List String) (kwargs : List (String × String))
    (h1 : task.retry_task = Except.ok name)
    (h2 : task.retry_args = Except.ok args)
    (h3 : task.retry_kwargs = Except.ok kwargs)
    (h4 : env.resolvable name = true)
    (h5 : env.invokeOk name args kwargs = true)
    (h6 : env.deleteOk task.id = true)
    (h7 : env.commitOk = true) :
    ((enqueue_task env task s).events =
      s.events ++ [Ev.invoke name args kwargs, Ev.setStatus task.id, Ev.delete task.id,
        Ev.commit, Ev.clear]) ∧
    task.id ∉ ((enqueue_task env task s).committed.map (fun t => t.id)) ∧
    (∀ (env2 : Env) (t2 : RetryRecord) (s2 : DState),
      t2.id ∈ s2.committed.map (fun t => t.id) →
      t2.id ∉ ((enqueue_task env2 t2 s2).committed.map (fun t => t.id)) →
      dispatchOk env2 t2 = true) := by
  have hs := enqueue_task_success_state env task s name args kwargs h1 h2 h3 h4 h5 h6 h7
  refine ⟨by rw [hs], ?_, ?_⟩
  · rw [hs]
    simp only [List.mem_map, List.mem_filter]
    rintro ⟨t, ⟨ht, hkeep⟩, hid⟩
    simp [hid] at hkeep
  · intro env2 t2 s2 hmem hgone
    cases hok : dispatchOk env2 t2
    · exfalso
      have hc := (enqueue_task_fail_store env2 t2 s2 hok).1
      rw [hc] at hgone
      exact hgone hmem
    · rfl

/-- Witness for the C1 theorem at a concrete all-steps-succeed input. -/
theorem enqueue_success_invoke_then_delete_then_commit_witness :
    ((enqueue_task env0 rec0 s0).events =
      [Ev.invoke "retry_order" ["o1"] [("p", "v")], Ev.setStatus 1, Ev.delete 1,
        Ev.commit, Ev.clear]) ∧
    (1 : Nat) ∉ ((enqueue_task env0 rec0 s0).committed.map (fun t => t.id)) := by
  have h := enqueue_success_invoke_then_delete_then_commit env0 rec0 s0
    "retry_order" ["o1"] [("p", "v")] rfl rfl rfl rfl rfl rfl rfl
  exact ⟨h.1, h.2.1⟩

/-- C2: for a retry record whose dispatch fails at any step (field read,
name resolution, remote invocation, delete or commit), `_enqueue_task` logs
the diagnostics, rolls back, and leaves the committed store unchanged with
the session view reset to it — so the record (and every other record) is
left present and unmodified in the store, and no other record's committed
state is affected. -/
theorem enqueue_failure_rollback_store_unchanged
    (env : Env) (task : RetryRecord) (s : DState)
    (hfail : dispatchOk env task = false) :
    (enqueue_task env task s).committed = s.committed ∧
    (enqueue_task env task s).pending = s.committed ∧
    (∀ t, t ∈ s.committed → t ∈ (enqueue_task env task s).committed ∧
      t ∈ (enqueue_task env task s).pending) ∧
    (∃ pre nm aa kk, (enqueue_task env task s).events =
      s.events ++ pre ++ [Ev.logError nm aa kk, Ev.rollback, Ev.clear]) := by
  obtain ⟨hc, hp⟩ := enqueue_task_fail_store env task s hfail
  refine ⟨hc, hp, fun t ht => ⟨hc ▸ ht, hp ▸ ht⟩, ?_⟩
  rcases task with ⟨i, ca, rt, ra, rk, st⟩
  rcases rt with u | name
  · exact ⟨[], LogVal.na, LogVal.na, LogVal.na, by
      simp [enqueue_task, enqueue_body, clearOp, rollbackOp, appendEv]⟩
  rcases ra with u | args
  · exact ⟨[], LogVal.str name, LogVal.na, LogVal.na, by
      simp [enqueue_task, enqueue_body, clearOp, rollbackOp, appendEv]⟩
  rcases rk with u | kwargs
  · exact ⟨[], LogVal.str name, LogVal.args args, LogVal.na, by
      simp [enqueue_task, enqueue_body, clearOp, rollbackOp, appendEv]⟩
  cases hres : env.resolvable name
  · exact ⟨[], LogVal.str name, LogVal.args args, LogVal.kwargs kwargs, by
      simp [enqueue_task, enqueue_body, hres, clearOp, rollbackOp, appendEv]⟩
  cases hinv : env.invokeOk name args kwargs
  · exact ⟨[], LogVal.str name, LogVal.args args, LogVal.kwargs kwargs, by
      simp [enqueue_task, enqueue_body, hres, hinv, clearOp, rollbackOp, appendEv]⟩
  cases hdel : env.deleteOk i
  · exact ⟨[Ev.invoke name args kwargs, Ev.setStatus i],
      LogVal.str name, LogVal.args args, LogVal.kwargs kwargs, by
      simp [enqueue_task, enqueue_body, hres, hinv, hdel, clearOp, rollbackOp, appendEv,
        set_status_active, delete_entity_by_id]⟩
  cases hcom : env.commitOk
  · exact ⟨[Ev.invoke name args kwargs, Ev.setStatus i, Ev.delete i],
      LogVal.str name, LogVal.args args, LogVal.kwargs kwargs, by
      simp [enqueue_task, enqueue_body, hres, hinv, hdel, hcom, clearOp, rollbackOp,
        appendEv, set_status_active, delete_entity_by_id, commitOp]⟩
  · simp [dispatchOk, hres, hinv, hdel, hcom] at hfail

/-- Witness for the C2 theorem at a concrete failing input (commit fails). -/
theorem enqueue_failure_rollback_store_unchanged_witness :
    (enqueue_task ⟨fun _ => true, fun _ _ _ => true, fun _ => true, false⟩ rec0 s0).committed
      = s0.committed ∧
    (enqueue_task ⟨fun _ => true, fun _ _ _ => true, fun _ => true, false⟩ rec0 s0).pending
      = s0.committed := by
  have h := enqueue_failure_rollback_store_unchanged
    ⟨fun _ => true, fun _ _ _ => true, fun _ => true, false⟩ rec0 s0 (by decide)
  exact ⟨h.1, h.2.1⟩

/-- C3: an exception in one record's dispatch is caught inside that dispatch
(the try-block error is handled by the log/rollback path), every record of
the cycle's list is still dispatched to completion (one session clear per
record), the check cycle itself always returns a value rather than raising,
and an unresolvable task name is handled identically to a failing remote
invocation. -/
theorem check_cycle_failure_isolation (env : Env) (entities : List RetryRecord)
    (total : Nat) (s : DState) :
    (0 < total → countClear (process_tasks env entities total s).events =
      countClear s.events + entities.length) ∧
    (∀ (task : RetryRecord) (e : (LogVal × LogVal × LogVal) × DState) (s2 : DState),
      enqueue_body env task s2 = Except.error e →
      enqueue_task env task s2 =
        clearOp (rollbackOp (appendEv e.2 (Ev.logError e.1.1 e.1.2.1 e.1.2.2)))) ∧
    (∀ (store : List RetryRecord) (now : Int) (tf : Bool) (B r : ℚ),
      ∃ out, check_retry_tasks env store now tf B r s = Except.ok out) ∧
    (∀ (e1 e2 : Env) (t : RetryRecord) (s2 : DState) (name : String)
      (args : List String) (kwargs : List (String × String)),
      t.retry_task = Except.ok name → t.retry_args = Except.ok args →
      t.retry_kwargs = Except.ok kwargs →
      e1.resolvable name = false →
      e2.resolvable name = true → e2.invokeOk name args kwargs = false →
      enqueue_task e1 t s2 = enqueue_task e2 t s2) := by
  refine ⟨?_, ?_, ?_, ?_⟩
  · intro ht
    simp only [process_tasks, if_pos ht]
    exact foldl_enqueue_countClear env entities s
  · rintro task ⟨⟨nm, aa, kk⟩, sErr⟩ s2 h
    simp [enqueue_task, h]
  · intro store now tf B r
    obtain ⟨es, tot, _, hc⟩ := check_retry_tasks_ok env store now tf B r s
    exact ⟨_, hc⟩
  · intro e1 e2 t s2 name args kwargs h1 h2 h3 hres1 hres2 hinv2
    rcases t with ⟨i, ca, rt, ra, rk, st⟩
    simp only [RetryRecord.mk.injEq] at h1 h2 h3 ⊢
    subst h1; subst h2; subst h3
    simp [enqueue_task, enqueue_body, hres1, hres2, hinv2]

/-- Witness for the C3 theorem: one-record cycle in an environment in which
the dispatch fails; the record's session clear still happens. -/
theorem check_cycle_failure_isolation_witness :
    countClear (process_tasks ⟨fun _ => false, fun _ _ _ => true, fun _ => true, true⟩
      [rec0] 1 s0).events = countClear s0.events + 1 := by
  have h := (check_cycle_failure_isolation
    ⟨fun _ => false, fun _ _ _ => true, fun _ => true, true⟩ [rec0] 1 s0).1 (by decide)
  simpa using h

/-- C4 counterexample: the dispatch stage of the check cycle guards the loop
with `if total > 0`, so with a nonempty fetched list accompanied by a total
count of zero no record is dispatched at all, refuting the claim for an
arbitrary accompanying total count. -/
theorem process_tasks_zero_total_counterexample :
    (process_tasks env0 [rec0] 0 s0).events = [] ∧ dispatchTrace env0 rec0 ≠ [] := by
  constructor
  · rfl
  · decide

/-- C4 (amended): when the fetched total count is positive — which the
due-time fetch guarantees whenever its returned list is nonempty — the check
cycle dispatches every record of the fetched list exactly once, in list
order: the cycle's trace extends the incoming trace by exactly the
concatenation of the records' dispatch traces. -/
theorem process_tasks_dispatches_each_once (env : Env) (entities : List RetryRecord)
    (total : Nat) (s : DState) (ht : 0 < total) :
    (process_tasks env entities total s).events =
      s.events ++ (entities.map (dispatchTrace env)).flatten ∧
    (∀ (store : List RetryRecord) (now : Int) (tf : Bool)
      (es : List RetryRecord) (tot : Nat),
      get_by_create_date store now tf true = Except.ok (es, tot) →
      es ≠ [] → 0 < tot) := by
  constructor
  · simp only [process_tasks, if_pos ht]
    exact foldl_enqueue_events env entities s
  · intro store now tf es tot h hne
    cases tf
    · simp only [get_by_create_date, Bool.false_eq_true, if_false,
        Except.ok.injEq, Prod.mk.injEq] at h
      obtain ⟨h1, h2⟩ := h
      subst h1
      subst h2
      exact List.length_pos.mpr hne
    · simp only [get_by_create_date, if_true, Except.ok.injEq, Prod.mk.injEq] at h
      obtain ⟨h1, h2⟩ := h
      subst h1
      exact absurd rfl hne

/-- Witness for the amended C4 theorem: a one-record list with positive
total count is dispatched exactly once. -/
theorem process_tasks_dispatches_each_once_witness :
    (process_tasks env0 [rec0] 1 s0).events =
      s0.events ++ ([rec0].map (dispatchTrace env0)).flatten :=
  (process_tasks_dispatches_each_once env0 [rec0] 1 s0 (by decide)).1

/-- C5: on every exit path of a record's dispatch — success or failure at
any step — the session clear is the final call, and it directly follows the
commit (success) or the rollback (failure) of that record's transaction. -/
theorem enqueue_clear_on_every_path (env : Env) (task : RetryRecord) (s : DState) :
    ∃ pre c, (enqueue_task env task s).events = s.events ++ pre ++ [c, Ev.clear] ∧
      (c = Ev.commit ∨ c = Ev.rollback) := by
  obtain ⟨pre, c, hshape, hc⟩ := dispatchTrace_shape env task
  refine ⟨pre, c, ?_, hc⟩
  rw [enqueue_task_events env task s, hshape, List.append_assoc]

/-- C6: the check cycle invokes the due-time fetch with
`suppress_exception=True`; under a transient store failure the fetch yields
zero records and a total count of zero without raising, the cycle dispatches
nothing and still completes, returning the next delay; and for any store
condition the cycle returns a value rather than raising. -/
theorem check_cycle_transient_suppression (env : Env) (store : List RetryRecord)
    (now : Int) (B r : ℚ) (s : DState) :
    get_by_create_date store now true true = Except.ok ([], 0) ∧
    check_retry_tasks env store now true B r s =
      Except.ok (s, compute_next_periodic_interval B r) ∧
    (∀ tf, ∃ out, check_retry_tasks env store now tf B r s = Except.ok out) := by
  refine ⟨rfl, rfl, fun tf => ?_⟩
  obtain ⟨es, tot, _, hc⟩ := check_retry_tasks_ok env store now tf B r s
  exact ⟨_, hc⟩

/-- C7: for a nonnegative configured base interval `B` and a unit-interval
random draw `r`, the jittered interval — and hence the delay returned by any
completed check cycle with that configuration and draw — lies in the closed
interval `[0.8*B, 1.2*B]`. -/
theorem next_interval_within_jitter_bounds (B r : ℚ)
    (hB : 0 ≤ B) (hr0 : 0 ≤ r) (hr1 : r ≤ 1) :
    compute_next_periodic_interval B r ∈ Set.Icc (0.8 * B) (1.2 * B) ∧
    (∀ (env : Env) (store : List RetryRecord) (now : Int) (tf : Bool)
      (s s2 : DState) (d : ℚ),
      check_retry_tasks env store now tf B r s = Except.ok (s2, d) →
      d ∈ Set.Icc (0.8 * B) (1.2 * B)) := by
  have hmem : compute_next_periodic_interval B r ∈ Set.Icc (0.8 * B) (1.2 * B) := by
    rw [Set.mem_Icc, compute_next_periodic_interval]
    constructor
    · nlinarith [mul_nonneg hB hr0]
    · nlinarith [mul_nonneg hB (by linarith : (0 : ℚ) ≤ 1 - r)]
  refine ⟨hmem, fun env store now tf s s2 d h => ?_⟩
  obtain ⟨es, tot, _, hc⟩ := check_retry_tasks_ok env store now tf B r s
  rw [hc] at h
  simp only [Except.ok.injEq, Prod.mk.injEq] at h
  rw [← h.2]
  exact hmem

/-- Witness for the C7 theorem at `B = 10`, `r = 1/2`. -/
theorem next_interval_within_jitter_bounds_witness :
    compute_next_periodic_interval 10 (1 / 2) ∈ Set.Icc ((0.8 : ℚ) * 10) (1.2 * 10) :=
  (next_interval_within_jitter_bounds 10 (1 / 2) (by norm_num) (by norm_num)
    (by norm_num)).1

/-- C8: the check cycle passes its current time `now` as the upper bound of
the due-time fetch and dispatches exactly the fetched records, and every
fetched — hence every dispatched — record satisfies `created_at <= now`; a
record with `created_at` in the future is never fetched. -/
theorem check_cycle_dispatches_only_due (env : Env) (store : List RetryRecord)
    (now : Int) (tf : Bool) (B r : ℚ) (s : DState)
    (es : List RetryRecord) (tot : Nat)
    (h : get_by_create_date store now tf true = Except.ok (es, tot)) :
    check_retry_tasks env store now tf B r s =
      Except.ok (process_tasks env es tot s, compute_next_periodic_interval B r) ∧
    ∀ t ∈ es, t.created_at ≤ now := by
  constructor
  · obtain ⟨es2, tot2, hf, hc⟩ := check_retry_tasks_ok env store now tf B r s
    rw [h] at hf
    simp only [Except.ok.injEq, Prod.mk.injEq] at hf
    rw [hc, hf.1, hf.2]
  · intro t ht
    cases tf
    · simp only [get_by_create_date, Bool.false_eq_true, if_false,
        Except.ok.injEq, Prod.mk.injEq] at h
      rw [← h.1] at ht
      have := List.mem_mergeSort.mp ht
      exact of_decide_eq_true (List.mem_filter.mp this).2
    · simp only [get_by_create_date, if_true, Except.ok.injEq, Prod.mk.injEq] at h
      rw [← h.1] at ht
      exact absurd ht (List.not_mem_nil t)

/-- Witness for the C8 theorem: a store with one past-due record, `now = 5`. -/
theorem check_cycle_dispatches_only_due_witness :
    check_retry_tasks env0 [rec0] 5 false 10 0 s0 =
      Except.ok (process_tasks env0 [rec0] 1 s0, compute_next_periodic_interval 10 0) ∧
    ∀ t ∈ [rec0], t.created_at ≤ 5 :=
  check_cycle_dispatches_only_due env0 [rec0] 5 false 10 0 s0 [rec0] 1
    (by simp [get_by_create_date, rec0])

/-- C9: the delay returned by a check cycle depends only on the configured
base interval and the cycle's random draw — two cycles with the same `B` and
`r` but different environments, stores, times, transient-failure conditions
or incoming states return the same next delay. -/
theorem next_delay_independent_of_records
    (env1 env2 : Env) (store1 store2 : List RetryRecord) (now1 now2 : Int)
    (tf1 tf2 : Bool) (s1 s2 : DState) (B r : ℚ) :
    (check_retry_tasks env1 store1 now1 tf1 B r s1).map Prod.snd =
    (check_retry_tasks env2 store2 now2 tf2 B r s2).map Prod.snd := by
  obtain ⟨_, _, _, hc1⟩ := check_retry_tasks_ok env1 store1 now1 tf1 B r s1
  obtain ⟨_, _, _, hc2⟩ := check_retry_tasks_ok env2 store2 now2 tf2 B r s2
  rw [hc1, hc2]
  rfl

/-- C10: the three diagnostic variables are pre-set to the `'N/A'`
placeholder before any record field is read, so a record whose field reads
themselves raise still completes the failure path — the handler logs the
placeholders for the unread fields and rollback and clear are still
invoked, with the store unchanged. -/
theorem enqueue_field_read_failure_na_placeholders
    (env : Env) (task : RetryRecord) (s : DState) :
    (task.retry_task = Except.error () →
      (enqueue_task env task s).events =
        s.events ++ [Ev.logError LogVal.na LogVal.na LogVal.na, Ev.rollback, Ev.clear] ∧
      (enqueue_task env task s).committed = s.committed ∧
      (enqueue_task env task s).pending = s.committed) ∧
    (∀ name, task.retry_task = Except.ok name → task.retry_args = Except.error () →
      (enqueue_task env task s).events =
        s.events ++ [Ev.logError (LogVal.str name) LogVal.na LogVal.na,
          Ev.rollback, Ev.clear]) ∧
    (∀ name args, task.retry_task = Except.ok name → task.retry_args = Except.ok args →
      task.retry_kwargs = Except.error () →
      (enqueue_task env task s).events =
        s.events ++ [Ev.logError (LogVal.str name) (LogVal.args args) LogVal.na,
          Ev.rollback, Ev.clear]) := by
  refine ⟨?_, ?_, ?_⟩
  · intro h
    refine ⟨?_, ?_, ?_⟩ <;>
      simp [enqueue_task, enqueue_body, h, clearOp, rollbackOp, appendEv]
  · intro name h1 h2
    simp [enqueue_task, enqueue_body, h1, h2, clearOp, rollbackOp, appendEv]
  · intro name args h1 h2 h3
    simp [enqueue_task, enqueue_body, h1, h2, h3, clearOp, rollbackOp, appendEv]

/-- Witness for the C10 theorem: a record whose `retry_task` read raises. -/
theorem enqueue_field_read_failure_na_placeholders_witness :
    (enqueue_task env0 recBad s0).events =
      [Ev.logError LogVal.na LogVal.na LogVal.na, Ev.rollback, Ev.clear] ∧
    (enqueue_task env0 recBad s0).committed = s0.committed ∧
    (enqueue_task env0 recBad s0).pending = s0.committed := by
  have h := (enqueue_field_read_failure_na_placeholders env0 recBad s0).1 rfl
  simpa using h
